import Mathlib

/-!
Shallow embedding of the form-state core (field registry, validation merge,
array reindexing, submission) of the repository, together with theorems
checking the specification's claims against it.

JavaScript values are modelled by `Val` (no floating point NaN and no plain
objects at the leaves: the values the core stores and moves around are
scalars and arrays).  JavaScript objects used as string-keyed records are
modelled by insertion-ordered association lists (`ObjMap`).  A JS object
property that may be absent is modelled by `Option`; a property explicitly
set to `undefined` is modelled as absent (the two are indistinguishable to
every read the core performs on field records).
-/

/-- A JavaScript value as stored by the form core. -/
inductive Val where
  | undef : Val
  | vnull : Val
  | vbool : Bool → Val
  | vnum : Int → Val
  | vstr : String → Val
  | varr : List Val → Val

/-- JS truthiness of a `Val` (arrays are always truthy). -/
def truthy : Val → Bool
  | Val.undef => false
  | Val.vnull => false
  | Val.vbool b => b
  | Val.vnum n => !(n == 0)
  | Val.vstr s => !(s == "")
  | Val.varr _ => true

/-- The JS expression `v ?? undefined`: nullish values collapse to `undefined`. -/
def jsCoalesceUndef : Val → Val
  | Val.undef => Val.undef
  | Val.vnull => Val.undef
  | v => v

/-- Insertion-ordered string-keyed record, the model of a plain JS object. -/
abbrev ObjMap (α : Type) : Type := List (String × α)

/-- Property read, `m[k]`; `none` models `undefined`. -/
def oget {α : Type} : ObjMap α → String → Option α
  | [], _ => none
  | (k, v) :: rest, key => if k = key then some v else oget rest key

/-- Property write, `m[k] = v`: an existing key keeps its position, a new key
is appended (JS insertion order). -/
def oset {α : Type} : ObjMap α → String → α → ObjMap α
  | [], key, val => [(key, val)]
  | (k, v) :: rest, key, val =>
    if k = key then (k, val) :: rest else (k, v) :: oset rest key val

/-- Property deletion, `delete m[k]`. -/
def odel {α : Type} : ObjMap α → String → ObjMap α
  | [], _ => []
  | (k, v) :: rest, key => if k = key then rest else (k, v) :: odel rest key

/-- `Object.keys(m)` in insertion order. -/
def okeys {α : Type} (m : ObjMap α) : List String := m.map Prod.fst

/-- Object spread `{...m1, ...m2}`. -/
def omerge {α : Type} (m1 m2 : ObjMap α) : ObjMap α :=
  m2.foldl (fun acc kv => oset acc kv.1 kv.2) m1

/-- Splits a list of characters on `'.'`, the model of `String.split('.')`;
always returns at least one (possibly empty) segment. -/
def splitOnDot : List Char → List (List Char)
  | [] => [[]]
  | c :: cs =>
    if c = '.' then [] :: splitOnDot cs
    else
      match splitOnDot cs with
      | [] => [[c]]
      | seg :: rest => (c :: seg) :: rest

/-- First segment of `name.split('.')`. -/
def keyFirstSegment (k : String) : String :=
  String.mk ((splitOnDot k.data).headD [])

/-- Second segment of `name.split('.')`; `none` models the destructured
`undefined` when the name has no dot. -/
def keySecondSegment (k : String) : Option String :=
  match splitOnDot k.data with
  | _ :: b :: _ => some (String.mk b)
  | _ => none

/-- Decimal digit value of a character, `none` for non-digits. -/
def digitVal? (c : Char) : Option Nat :=
  if 48 ≤ c.toNat ∧ c.toNat ≤ 57 then some (c.toNat - 48) else none

/-- Left-to-right decimal parse; `parseNatDigits [] = some 0` mirrors JS
`Number("") === 0`, any non-digit character yields `none` (NaN). -/
def parseNatDigits (cs : List Char) : Option Nat :=
  cs.foldl
    (fun acc c =>
      match acc, digitVal? c with
      | some a, some d => some (10 * a + d)
      | _, _ => none)
    (some 0)

/-- The model of JS `Number(s)` on the strings this core produces and parses:
decimal integers with an optional leading minus sign; `none` models NaN.
(Floats, exponents, hex and whitespace trimming never arise for the
dot-separated index segments this core feeds to `Number`.) -/
def jsNumber (s : String) : Option Int :=
  if s.data.head? = some '-' then
    if s.data.tail = [] then none
    else (parseNatDigits s.data.tail).map (fun v => -(v : Int))
  else (parseNatDigits s.data).map (fun v => (v : Int))

/-- Fuel-driven decimal rendering helper (structural, so proofs and witnesses
can evaluate it); `natToCharsGo (n+1) n` always has enough fuel. -/
def natToCharsGo : Nat → Nat → List Char
  | 0, _ => []
  | f + 1, n =>
    if n < 10 then [Char.ofNat (48 + n)]
    else natToCharsGo f (n / 10) ++ [Char.ofNat (48 + n % 10)]

/-- Decimal rendering of a natural number, the model of the template literal
interpolation of a nonnegative JS number. -/
def natStr (n : Nat) : String := String.mk (natToCharsGo (n + 1) n)

/-- Decimal rendering of an integer (JS template interpolation). -/
def intStr (i : Int) : String :=
  if i < 0 then String.mk ('-' :: natToCharsGo (i.natAbs + 1) i.natAbs)
  else natStr i.toNat

/-- The array-item key `` `${group}.${i}` ``. -/
def mkKey (g : String) (i : Nat) : String := g ++ "." ++ natStr i

/-- `name.includes('.')`. -/
def strContainsDot (s : String) : Bool := s.data.contains '.'

/-- `k.startsWith(p)`. -/
def strStartsWith (k p : String) : Bool := p.data.isPrefixOf k.data

/-- One stored field record (`FormFieldType` in the source).  Every attribute
is optional because the registry operations can create records holding only a
subset of the attributes (e.g. `updateField` on an unknown name). -/
structure FormFieldType where
  required : Option Bool := none
  touched : Option Bool := none
  originalValue : Option Val := none
  value : Option Val := none
  error : Option Bool := none
  errorMessage : Option (Option String) := none
  _registered : Option Bool := none
  _item : Option Bool := none

/-- Right-biased attribute merge, one property of a JS object spread. -/
def mergeOpt {α : Type} (old p : Option α) : Option α :=
  match p with
  | some x => some x
  | none => old

/-- The record spread `{...old, ...p}`. -/
def mergeField (old p : FormFieldType) : FormFieldType where
  required := mergeOpt old.required p.required
  touched := mergeOpt old.touched p.touched
  originalValue := mergeOpt old.originalValue p.originalValue
  value := mergeOpt old.value p.value
  error := mergeOpt old.error p.error
  errorMessage := mergeOpt old.errorMessage p.errorMessage
  _registered := mergeOpt old._registered p._registered
  _item := mergeOpt old._item p._item

/-- A record carrying every attribute (what `registerField` creates). -/
def completeRec (v : FormFieldType) : Bool :=
  v.required.isSome && (v.touched.isSome && (v.originalValue.isSome &&
    (v.value.isSome && (v.error.isSome && (v.errorMessage.isSome &&
    (v._registered.isSome && v._item.isSome))))))

/-- The field registry: the `fields` object of the form state. -/
abbrev Registry : Type := ObjMap FormFieldType

/-!  ### FieldRegistry operations (source lines 95-213)  -/

/-- `registerField(name, field, isArray)` (source lines 95-145), applied to the
current `fields` state.  `initialValues` and `initialTouched` are the props the
source closes over.  Note that in the non-array branch the source seeds
`originalValue` from the caller patch (`field.value ?? undefined`), not from
the resolved initial value. -/
def registerField (initialValues : ObjMap Val) (initialTouched : Bool)
    (name : String) (field : FormFieldType) (isArray : Bool)
    (fields : Registry) : Registry :=
  if isArray then
    match oget initialValues name with
    | some (Val.varr items) =>
      (items.enum).foldl
        (fun acc iv =>
          oset acc (mkKey name iv.1)
            (mergeField
              { required := some false
                touched := some (truthy iv.2 || initialTouched)
                value := some iv.2
                originalValue := some iv.2
                error := some false
                errorMessage := some none }
              (mergeField field
                { _registered := some true, _item := some true })))
        fields
    | _ => fields
  else
    let directInitial := (oget initialValues name).getD Val.undef
    let initialValue :=
      if strContainsDot name then
        let listName := keyFirstSegment name
        let itemIndex : Int :=
          ((keySecondSegment name).bind jsNumber).getD (-1)
        match oget initialValues listName with
        | some (Val.varr items) =>
          if truthy (Val.varr items) && itemIndex > -1 then
            (items.getD itemIndex.toNat Val.undef)
          else directInitial
        | some _ =>
          -- a truthy non-array initial fails the Array.isArray check
          directInitial
        | none => directInitial
      else directInitial
    oset fields name
      (mergeField
        { required := some false
          touched := some (truthy initialValue || initialTouched)
          value := some (jsCoalesceUndef initialValue)
          originalValue := some (jsCoalesceUndef (field.value.getD Val.undef))
          error := some false
          errorMessage := some none }
        (mergeField field
          { _registered := some true, _item := some (strContainsDot name) }))

/-- `reregisterField(name)` (source lines 151-161). -/
def reregisterField (name : String) (fields : Registry) : Registry :=
  oset fields name
    (mergeField ((oget fields name).getD {}) { _registered := some true })

/-- `unregisterField(name)` (source lines 167-177). -/
def unregisterField (name : String) (fields : Registry) : Registry :=
  oset fields name
    (mergeField ((oget fields name).getD {}) { _registered := some false })

/-- `deleteField(name)` (source lines 182-188). -/
def deleteField (name : String) (fields : Registry) : Registry :=
  odel fields name

/-- `updateField(name, field)` (source lines 203-213). -/
def updateField (name : String) (field : FormFieldType)
    (fields : Registry) : Registry :=
  oset fields name (mergeField ((oget fields name).getD {}) field)

/-!  ### ValidationEngine (source lines 218-325)  -/

/-- The flattening step shared by the two value-tree reduces of `validateForm`
(source lines 243-259 and 303-316): a dotted key contributes
`acc[listName][itemIndex] = value` (ensuring an array first, NaN index
falling back to 0), an undotted key contributes `acc[k] = value`. -/
def flattenStep (acc : ObjMap Val) (k : String) (v : Val) : ObjMap Val :=
  if strContainsDot k then
    let listName := keyFirstSegment k
    let itemIndex : Int := ((keySecondSegment k).bind jsNumber).getD 0
    let base := (oget acc listName).getD Val.undef
    let base := if truthy base then base else Val.varr []
    let newV :=
      match base with
      | Val.varr xs =>
        if 0 ≤ itemIndex then
          Val.varr (List.set (xs ++ List.replicate (itemIndex.toNat + 1 - xs.length) Val.undef) itemIndex.toNat v)
        else Val.varr xs
      | other => other
    oset acc listName newV
  else oset acc k v

/-- The first reduce of `validateForm` (source lines 242-259): the list of
required registered keys (`allRequiredFields`) together with the flattened
value tree over the registered entries. -/
def collectForValidation (fields : Registry) : List String × ObjMap Val :=
  fields.foldl
    (fun acc kv =>
      if kv.2._registered.getD false then
        (if kv.2.required.getD false then acc.1 ++ [kv.1] else acc.1,
         flattenStep acc.2 kv.1 (kv.2.value.getD Val.undef))
      else acc)
    ([], [])

/-- The second reduce of `validateForm` (source lines 303-316): the flattened
value tree over every entry, registered or not. -/
def simpleFieldsOf (fields : Registry) : ObjMap Val :=
  fields.foldl (fun acc kv => flattenStep acc kv.1 (kv.2.value.getD Val.undef)) []

/-- The opaque external validator: receives the dynamically required keys and
the flattened value tree, returns the issues (path, message); an empty list
models `safeParse` success. -/
abbrev SchemaParse : Type := List String → ObjMap Val → List (List String × String)

/-- The per-record update of `validateForm` (source lines 273-292). -/
def applyError (touch : Bool) (errored : ObjMap String) (k : String)
    (v : FormFieldType) : FormFieldType :=
  match oget errored k with
  | some msg =>
    { v with error := some true, errorMessage := some (some msg),
             touched := if touch then some true else v.touched }
  | none =>
    { v with error := some false, errorMessage := some none,
             touched := if touch then some true else v.touched }

/-- `isFormValid(_fields)` (source lines 218-234).  `unregisteredErrors` is the
state the source reads through its closure.  In the source the reduced
`errors` value is an object, hence always truthy, so the trailing ternary can
never produce `undefined`: the merge branch is taken unconditionally. -/
def isFormValid (unregisteredErrors : ObjMap String) (_fields : Registry) :
    Bool × Option (ObjMap (Option String)) :=
  let errors :=
    _fields.foldl
      (fun acc kv =>
        if kv.2.error.getD false then oset acc kv.1 (kv.2.errorMessage.getD none)
        else acc)
      ([] : ObjMap (Option String))
  let valid := errors.length == 0
  (valid, some (omerge errors (unregisteredErrors.map (fun kv => (kv.1, some kv.2)))))

/-- The state a form instance owns: the registry, the unregistered-error side
table, and the submitting flag. -/
structure FormState where
  fields : Registry
  unregisteredErrors : ObjMap String
  submitting : Bool

/-- What `validateForm` returns to its caller. -/
structure ValidateResult where
  fields : ObjMap Val
  valid : Bool
  errors : Option (ObjMap (Option String))

/-- `validateForm(options)` (source lines 239-325): returns the result and the
updated form state.  `isFormValid` is invoked with the unregistered-error
table captured before this pass (the source reads the previous state through
the memoized closure), while the returned `errors` additionally merge the
fresh unregistered errors. -/
def validateFormRun (parse : SchemaParse) (touch : Bool) (s : FormState) :
    ValidateResult × FormState :=
  let collected := collectForValidation s.fields
  let issues := parse collected.1 collected.2
  let erroredFieldKeys :=
    issues.foldl (fun acc pm => oset acc (String.intercalate "." pm.1) pm.2)
      ([] : ObjMap String)
  let updatedFields : Registry :=
    s.fields.map (fun kv => (kv.1, applyError touch erroredFieldKeys kv.1 kv.2))
  let allHandledErrorKeys := okeys s.fields
  let unregisteredFieldErrors :=
    erroredFieldKeys.filter (fun kv => !(allHandledErrorKeys.contains kv.1))
  let validAndErrors := isFormValid s.unregisteredErrors updatedFields
  let simpleFields := simpleFieldsOf updatedFields
  let errorsOut :=
    match validAndErrors.2 with
    | some e =>
      some (omerge e (unregisteredFieldErrors.map (fun kv => (kv.1, some kv.2))))
    | none => none
  ({ fields := simpleFields, valid := validAndErrors.1, errors := errorsOut },
   { s with fields := updatedFields,
            unregisteredErrors := unregisteredFieldErrors })

/-- Count of handled (field-attached) errors after a pass: the registry
entries whose error flag is set. -/
def countHandledErrors (fields : Registry) : Nat :=
  fields.countP (fun kv => kv.2.error.getD false)

/-!  ### FormController operations (source lines 346-416)  -/

/-- The per-record reset of `resetForm` (source lines 349-357). -/
def resetRecord (v : FormFieldType) : FormFieldType :=
  { v with touched := some (truthy (v.originalValue.getD Val.undef)),
           value := some (jsCoalesceUndef (v.originalValue.getD Val.undef)),
           error := some false,
           errorMessage := some none }

/-- `resetForm()` (source lines 346-362). -/
def resetForm (fields : Registry) : Registry :=
  fields.map (fun kv => (kv.1, resetRecord kv.2))

/-- Whether the awaited submit handler settles normally or rejects. -/
inductive HandlerOutcome where
  | ok : HandlerOutcome
  | err : HandlerOutcome

/-- Outcome of one `submitForm` call. -/
structure SubmitResult where
  state : FormState
  threw : Bool
  handlerCalls : Nat
  warnings : Nat

/-- One `submitForm(submitHandler?)` call taken in isolation (source lines
394-416), including how it settles.  `s` is the snapshot the call's closure
reads (`submitting`, `fields`); the returned state is what the queued
`setSubmitting`/`setFields`/`setUnregisteredErrors` updates commit.
`hasHandler` is whether a handler runs (a caller-supplied one or the
configured `onSubmit`).  The source has no try/finally: when the awaited
handler rejects, the trailing `setSubmitting(false)` is skipped and the
rejection propagates to the caller.  (Across several calls in one tick the
closure snapshot does not advance between calls; `submitFormTickCall` below
models that.) -/
def submitForm (parse : SchemaParse) (hasHandler : Bool)
    (outcome : HandlerOutcome) (s : FormState) : SubmitResult :=
  if s.submitting then
    { state := s, threw := false, handlerCalls := 0, warnings := 1 }
  else
    let s1 : FormState := { s with submitting := true }
    let s2 := (validateFormRun parse true s1).2
    match hasHandler, outcome with
    | true, HandlerOutcome.err =>
      { state := s2, threw := true, handlerCalls := 1, warnings := 0 }
    | true, HandlerOutcome.ok =>
      { state := { s2 with submitting := false }, threw := false,
        handlerCalls := 1, warnings := 0 }
    | false, _ =>
      { state := { s2 with submitting := false }, threw := false,
        handlerCalls := 0, warnings := 0 }

/-- The synchronous prefix of one `submitForm` invocation issued within a
single tick (source lines 394-416).  `rendered` is the state the `useCallback`
closure captured at render time: the guard reads `rendered.submitting` and
`validateForm` reads `rendered.fields`, and neither sees the updates queued
by earlier calls in the same tick — those live only in `queued`, the pending
state React will commit.  When the guard passes, the call queues
`setSubmitting(true)` and the `validateForm({touch:true})` results and
invokes the handler; returns the new queued state, this call's handler
invocations, and its warnings. -/
def submitFormTickCall (parse : SchemaParse) (hasHandler : Bool)
    (rendered queued : FormState) : FormState × Nat × Nat :=
  if rendered.submitting then (queued, 0, 1)
  else
    let s1 : FormState := { rendered with submitting := true }
    let s2 := (validateFormRun parse true s1).2
    (s2, if hasHandler then 1 else 0, 0)

/-!  ### FieldBinding (source lines 496-588)  -/

/-- JS truthiness of a value that is either a boolean property or absent. -/
def jsTruthyOptBool (a : Option Bool) : Bool := a.getD false

/-- The JS expression `a && b` on such values: `a` if falsy, else `b`. -/
def jsAndOptBool (a b : Option Bool) : Option Bool :=
  if jsTruthyOptBool a then b else a

/-- The data part of the per-field context value the `Field` component hands
to its children (source lines 557-565): the record spread, with `error`
overridden by `field?.error && field?.touched`. -/
structure FieldContextValue where
  required : Option Bool
  touched : Option Bool
  originalValue : Option Val
  value : Option Val
  error : Option Bool
  errorMessage : Option (Option String)
  _registered : Option Bool
  _item : Option Bool

/-- Builds the `Field` context value from the (possibly absent) record. -/
def fieldContextValue (field : Option FormFieldType) : FieldContextValue where
  required := field.bind (fun f => f.required)
  touched := field.bind (fun f => f.touched)
  originalValue := field.bind (fun f => f.originalValue)
  value := field.bind (fun f => f.value)
  error := jsAndOptBool (field.bind (fun f => f.error)) (field.bind (fun f => f.touched))
  errorMessage := field.bind (fun f => f.errorMessage)
  _registered := field.bind (fun f => f._registered)
  _item := field.bind (fun f => f._item)

/-!  ### ArrayGroupController: removal (source lines 701-717)  -/

/-- Whether a registry key belongs to the dotted-index view of `name`
(`k.startsWith(name) && k.includes('.')`). -/
def isGroupKey (name k : String) : Bool :=
  strStartsWith k name && strContainsDot k

/-- Indexed-map insertion: JS object keys here are the stringified numbers,
so the key space is `Option Int` (`none` is the `"NaN"` key). -/
def nset {α : Type} : List (Option Int × α) → Option Int → α → List (Option Int × α)
  | [], key, val => [(key, val)]
  | (k, v) :: rest, key, val =>
    if k = key then (k, val) :: rest else (k, v) :: nset rest key val

/-- The `indexedMap` built at the top of `removeHandler` (source lines
703-709): every record under a dotted key of the group, keyed by
`Number(<second segment>)`. -/
def collectIndexed (name : String) (fields : Registry) :
    List (Option Int × FormFieldType) :=
  fields.foldl
    (fun acc kv =>
      if isGroupKey name kv.1 then
        nset acc ((keySecondSegment kv.1).bind jsNumber) kv.2
      else acc)
    []

/-- The body of the shift loop of `removeHandler` (source lines 711-713),
written with an explicit iteration count: starting at `i = a`, each of the
`len` iterations copies the snapshot record of `name.(i+1)` (or `{}` when
absent) onto `name.i` via `updateField` and moves to `i + 1`. -/
def shiftLoopGo (name : String) (snapshot : Registry) :
    Nat → Nat → Registry → Registry
  | _, 0, st => st
  | a, len + 1, st =>
    shiftLoopGo name snapshot (a + 1) len
      (updateField (mkKey name a) ((oget snapshot (mkKey name (a + 1))).getD {}) st)

/-- The shift loop `for (let i = itemIndex; i < cnt - 1; i++)` of
`removeHandler`: `cnt - 1 - itemIndex` iterations starting at `itemIndex`. -/
def shiftLoop (name : String) (snapshot : Registry) (cnt itemIndex : Nat)
    (fields : Registry) : Registry :=
  shiftLoopGo name snapshot itemIndex (cnt - 1 - itemIndex) fields

/-- `removeHandler(itemIndex)` of `FieldArray` (source lines 701-717). -/
def removeHandler (name : String) (itemIndex : Nat) (fields : Registry) :
    Registry :=
  let cnt := (collectIndexed name fields).length
  let shifted := shiftLoop name fields cnt itemIndex fields
  deleteField (name ++ "." ++ intStr ((cnt : Int) - 1)) shifted

/-!  ### Basic facts about the object-map operations  -/

theorem oget_oset_self {α : Type} (m : ObjMap α) (k : String) (v : α) :
    oget (oset m k v) k = some v := by
  induction m with
  | nil => simp [oget, oset]
  | cons kv rest ih =>
    by_cases h : kv.1 = k
    · simp [oget, oset, h]
    · simp [oget, oset, h, ih]

theorem oget_oset_ne {α : Type} (m : ObjMap α) (k k' : String) (v : α)
    (h : k' ≠ k) : oget (oset m k v) k' = oget m k' := by
  have h' : ¬(k = k') := fun hh => h hh.symm
  induction m with
  | nil => simp [oget, oset, h']
  | cons kv rest ih =>
    by_cases hk : kv.1 = k
    · simp [oget, oset, hk, h']
    · by_cases hk' : kv.1 = k'
      · simp [oget, oset, hk, hk', h]
      · simp [oget, oset, hk, hk', ih]

theorem oset_ne_nil {α : Type} (m : ObjMap α) (k : String) (v : α) :
    oset m k v ≠ [] := by
  cases m with
  | nil => simp [oset]
  | cons kv rest =>
    by_cases h : kv.1 = k <;> simp [oset, h]

theorem oset_of_absent {α : Type} (m : ObjMap α) (k : String) (v : α)
    (h : oget m k = none) : oset m k v = m ++ [(k, v)] := by
  induction m with
  | nil => simp [oset]
  | cons kv rest ih =>
    by_cases hk : kv.1 = k
    · simp [oget, hk] at h
    · simp only [oget, hk, if_false, ite_false] at h
      simp [oset, hk, ih h]

theorem okeys_oset_of_present {α : Type} (m : ObjMap α) (k : String) (v : α)
    (h : (oget m k).isSome) : okeys (oset m k v) = okeys m := by
  induction m with
  | nil => simp [oget] at h
  | cons kv rest ih =>
    by_cases hk : kv.1 = k
    · simp [oset, okeys, hk]
    · simp only [oget, hk, if_false, ite_false] at h
      simp only [oset, hk, if_false, ite_false, okeys, List.map_cons]
      have := ih h
      simp only [okeys] at this
      rw [this]

theorem oget_eq_none_of_not_mem {α : Type} (m : ObjMap α) (k : String)
    (h : k ∉ okeys m) : oget m k = none := by
  induction m with
  | nil => simp [oget]
  | cons kv rest ih =>
    simp only [okeys, List.map_cons, List.mem_cons, not_or] at h
    have hk : ¬(kv.1 = k) := fun hh => h.1 hh.symm
    simp only [oget, hk, if_false, ite_false]
    exact ih (by simpa [okeys] using h.2)

theorem oget_odel_ne {α : Type} (m : ObjMap α) (k k' : String) (h : k' ≠ k) :
    oget (odel m k) k' = oget m k' := by
  induction m with
  | nil => simp [odel]
  | cons kv rest ih =>
    by_cases hk : kv.1 = k
    · have hne : ¬(kv.1 = k') := fun hh => h ((hh.symm.trans hk))
      have h' : ¬(k = k') := fun hh => h hh.symm
      simp [odel, oget, hk, hne, h']
    · by_cases hk' : kv.1 = k'
      · simp [odel, oget, hk, hk', h]
      · simp [odel, oget, hk, hk', ih]

theorem oget_odel_self {α : Type} (m : ObjMap α) (k : String)
    (h : (okeys m).Nodup) : oget (odel m k) k = none := by
  induction m with
  | nil => simp [odel, oget]
  | cons kv rest ih =>
    simp only [okeys, List.map_cons, List.nodup_cons] at h
    by_cases hk : kv.1 = k
    · simp only [odel, hk, if_true, ite_true]
      exact oget_eq_none_of_not_mem rest k (hk ▸ h.1)
    · simp only [odel, hk, if_false, ite_false, oget]
      exact ih (by simpa [okeys] using h.2)

theorem mem_of_oget_eq_some {α : Type} (m : ObjMap α) (k : String) (v : α)
    (h : oget m k = some v) : (k, v) ∈ m := by
  induction m with
  | nil => simp [oget] at h
  | cons kv rest ih =>
    by_cases hk : kv.1 = k
    · simp only [oget, hk, if_true, ite_true, Option.some.injEq] at h
      exact List.mem_cons.mpr (Or.inl (by cases kv with | mk a b => simp_all))
    · simp only [oget, hk, if_false, ite_false] at h
      exact List.mem_cons.mpr (Or.inr (ih h))

theorem oget_isSome_of_mem {α : Type} (m : ObjMap α) (k : String) (v : α)
    (h : (k, v) ∈ m) : (oget m k).isSome := by
  induction m with
  | nil => simp at h
  | cons kv rest ih =>
    by_cases hk : kv.1 = k
    · simp [oget, hk]
    · rcases List.mem_cons.mp h with h1 | h1
      · exact absurd (congrArg Prod.fst h1).symm hk
      · simp only [oget, hk, if_false, ite_false]
        exact ih h1

/-!  ### Facts about the record merge  -/

theorem mergeOpt_none_left {α : Type} (p : Option α) : mergeOpt none p = p := by
  cases p <;> rfl

theorem mergeField_empty_left (p : FormFieldType) : mergeField {} p = p := by
  cases p
  simp [mergeField, mergeOpt_none_left]

/-!  ### Facts about the error fold of `isFormValid`  -/

theorem errorsFold_eq_nil (l : Registry) (acc : ObjMap (Option String)) :
    l.foldl
        (fun acc kv =>
          if kv.2.error.getD false then oset acc kv.1 (kv.2.errorMessage.getD none)
          else acc) acc = []
      ↔ acc = [] ∧ l.countP (fun kv => kv.2.error.getD false) = 0 := by
  induction l generalizing acc with
  | nil => simp
  | cons a l ih =>
    by_cases hp : a.2.error.getD false
    · simp only [List.foldl_cons, hp, if_true, ite_true]
      rw [ih]
      simp [List.countP_cons, hp, oset_ne_nil]
    · simp only [List.foldl_cons, hp, if_false, ite_false]
      rw [ih]
      simp [List.countP_cons, hp]

theorem isFormValid_nil_unreg_of_no_errors (l : Registry)
    (h : ∀ kv ∈ l, kv.2.error.getD false = false) :
    isFormValid [] l = (true, some []) := by
  have hc : l.countP (fun kv => kv.2.error.getD false) = 0 :=
    List.countP_eq_zero.mpr (by intro kv hkv; simp [h kv hkv])
  have hnil := (errorsFold_eq_nil l []).mpr ⟨rfl, hc⟩
  simp [isFormValid, hnil, omerge]


/-!  ### Claim C1  -/

/-- C1 counterexample: a validation failure at path `user.name`, which no
registered field exposes (only `"user"` is registered), still yields
`valid = true`: the handled error count is 0 and the unregistered error count
is 1, so `valid` is not `(handled + unregistered) == 0`, and a failure at a
path no field exposes does grant a `valid` verdict. -/
theorem validateForm_valid_despite_unregistered_error_cex :
    (let r := validateFormRun (fun _ _ => [(["user", "name"], "Required")]) false
        { fields := [("user",
            { required := some false, touched := some true,
              originalValue := some (Val.vstr "u"), value := some (Val.vstr "u"),
              error := some false, errorMessage := some none,
              _registered := some true, _item := some false })],
          unregisteredErrors := [], submitting := false };
     r.1.valid = true ∧
     countHandledErrors r.2.fields = 0 ∧
     r.2.unregisteredErrors.length = 1 ∧
     r.1.errors = some [("user.name", some "Required")]) :=
  ⟨rfl, rfl, rfl, rfl⟩

/-- C1 amended: the `valid` flag returned by a `validateForm` pass is true
exactly when the count of handled (field-attached) errors is zero;
unregistered errors are merged into the `errors` output but do not influence
`valid`. -/
theorem validateForm_valid_iff_no_handled_errors (parse : SchemaParse)
    (touch : Bool) (s : FormState) :
    ((validateFormRun parse touch s).1.valid = true) ↔
      countHandledErrors (validateFormRun parse touch s).2.fields = 0 := by
  simp only [validateFormRun, isFormValid, countHandledErrors]
  rw [beq_iff_eq, List.length_eq_zero, errorsFold_eq_nil]
  simp

/-!  ### Claim C2  -/

/-- C2: `submitForm` with a handler that rejects leaves the `submitting` flag
stuck at `true` after the call settles (the source has no try/finally, so the
trailing `setSubmitting(false)` is skipped), while the rejection does
propagate to the caller.  This contradicts the claim that the flag is always
cleared after the handler settles. -/
theorem submitForm_submitting_stuck_on_reject :
    (let r := submitForm (fun _ _ => []) true HandlerOutcome.err
        { fields := [], unregisteredErrors := [], submitting := false };
     r.state.submitting = true ∧ r.threw = true ∧ r.handlerCalls = 1 ∧
       r.warnings = 0) :=
  ⟨rfl, rfl, rfl, rfl⟩

/-!  ### Claim C3  -/

/-- C3: two `submitForm()` calls issued synchronously in the same tick (the
second before the first is awaited) both read the same rendered closure
snapshot, whose `submitting` is still `false`: the first call's queued
`setSubmitting(true)` — visible in the queued state — is not visible to the
second call's guard.  The second call therefore emits no warning and invokes
the handler a second time: the handler runs twice across the pair, refuting
the claimed warned no-op. -/
theorem submitForm_same_tick_double_submit :
    (let rendered : FormState :=
      { fields := [], unregisteredErrors := [], submitting := false };
     let first := submitFormTickCall (fun _ _ => []) true rendered rendered;
     let second := submitFormTickCall (fun _ _ => []) true rendered first.1;
     first.1.submitting = true ∧
     second.2.1 = 1 ∧
     second.2.2 = 0 ∧
     first.2.1 + second.2.1 = 2) :=
  ⟨rfl, rfl, rfl, rfl⟩

/-!  ### Claim C4  -/

/-- C4 counterexample: on a name never registered, each of `updateField`,
`unregisterField` and `reregisterField` creates a fresh entry in the empty
registry, so they are not "no-ops that create no entry". -/
theorem unknown_name_ops_create_entries_cex :
    okeys (updateField "x" {} []) = ["x"] ∧
    okeys (unregisterField "x" []) = ["x"] ∧
    okeys (reregisterField "x" []) = ["x"] :=
  ⟨rfl, rfl, rfl⟩

/-- C4 amended: on a name never registered, `updateField`, `unregisterField`
and `reregisterField` never throw and leave every existing record unchanged,
but each appends a new entry under that name: `updateField` stores just the
supplied attributes, `unregisterField` stores only `_registered = false`, and
`reregisterField` stores only `_registered = true`. -/
theorem unknown_name_ops_append_entry (reg : Registry) (name : String)
    (patch : FormFieldType) (h : oget reg name = none) :
    updateField name patch reg = reg ++ [(name, patch)] ∧
    unregisterField name reg = reg ++ [(name, { _registered := some false })] ∧
    reregisterField name reg = reg ++ [(name, { _registered := some true })] := by
  refine ⟨?_, ?_, ?_⟩ <;>
    simp [updateField, unregisterField, reregisterField, h,
      mergeField_empty_left, oset_of_absent _ _ _ h]

/-- C4 witness: the amended behavior exercised at a concrete registry holding
one other field. -/
theorem unknown_name_ops_append_entry_witness :
    updateField "x" { value := some (Val.vnum 1) } [("a", {})]
        = [("a", {}), ("x", { value := some (Val.vnum 1) })] ∧
    unregisterField "x" [("a", {})]
        = [("a", {}), ("x", { _registered := some false })] ∧
    reregisterField "x" [("a", {})]
        = [("a", {}), ("x", { _registered := some true })] :=
  unknown_name_ops_append_entry [("a", {})] "x" { value := some (Val.vnum 1) } rfl

/-!  ### Claim C5  -/

/-- C5: registering `"a"` (no dot, no caller value override) while
`initialValues.a = "x"` resolves the initial value into `value`, but
`originalValue` is seeded from the absent caller override (`field.value ??
undefined`), i.e. `undefined` — not the resolved initial value — so a
subsequent `resetForm()` sets the field's value to `undefined` instead of
restoring `"x"`.  This contradicts the claim (and the source's own comment
that reset restores the values set via the `initialValues` prop). -/
theorem registerField_originalValue_ignores_initial :
    (let reg := registerField [("a", Val.vstr "x")] false "a" {} false [];
     (oget reg "a").bind (fun r => r.value) = some (Val.vstr "x") ∧
     (oget reg "a").bind (fun r => r.originalValue) = some Val.undef ∧
     (oget (resetForm reg) "a").bind (fun r => r.value) = some Val.undef ∧
     Val.undef ≠ Val.vstr "x") :=
  ⟨rfl, rfl, rfl, fun h => nomatch h⟩

/-!  ### Claim C6  -/

/-- C6 counterexample: a form with one registered, non-required field whose
value the external validator accepts yields `valid = true` but
`errors = some []` — an (empty) object, never `undefined` — because the
reduced `errors` object in `isFormValid` is always truthy, so the
`: undefined` ternary branch is dead. -/
theorem validateForm_success_errors_not_undefined_cex :
    (let r := validateFormRun (fun _ _ => []) false
        { fields := [("a",
            { required := some false, touched := some false,
              originalValue := some Val.undef, value := some (Val.vstr "v"),
              error := some false, errorMessage := some none,
              _registered := some true, _item := some false })],
          unregisteredErrors := [], submitting := false };
     r.1.valid = true ∧ r.1.errors = some [] ∧ r.1.errors ≠ none) :=
  ⟨rfl, rfl, fun h => nomatch h⟩

/-- C6 amended: when no stored field is required, the external validator
reports success, and the previous pass recorded no unregistered errors,
`validateForm` returns `valid = true` with `errors` equal to the empty
object — not `undefined` (with stale unregistered errors present, they would
additionally be merged into `errors`). -/
theorem validateForm_success_yields_empty_errors_object (parse : SchemaParse)
    (s : FormState)
    (_hreq : ∀ kv ∈ s.fields, kv.2.required.getD false = false)
    (hparse : ∀ rk tree, parse rk tree = [])
    (hstale : s.unregisteredErrors = []) :
    (validateFormRun parse false s).1.valid = true ∧
    (validateFormRun parse false s).1.errors = some [] := by
  have hmem : ∀ kv ∈ s.fields.map
      (fun kv => (kv.1, applyError false [] kv.1 kv.2)),
      kv.2.error.getD false = false := by
    intro kv hkv
    rcases List.mem_map.mp hkv with ⟨a, _, rfl⟩
    simp [applyError, oget]
  have hvalid := isFormValid_nil_unreg_of_no_errors _ hmem
  simp only [validateFormRun, hparse, hstale, List.foldl_nil, List.filter_nil,
    hvalid]
  simp [omerge]

/-- C6 witness: the amended statement exercised on a concrete one-field form
with an accepting validator. -/
theorem validateForm_success_yields_empty_errors_object_witness :
    (validateFormRun (fun _ _ => []) false
        { fields := [("a",
            { required := some false, touched := some false,
              originalValue := some Val.undef, value := some (Val.vstr "v"),
              error := some false, errorMessage := some none,
              _registered := some true, _item := some false })],
          unregisteredErrors := [], submitting := false }).1.valid = true ∧
    (validateFormRun (fun _ _ => []) false
        { fields := [("a",
            { required := some false, touched := some false,
              originalValue := some Val.undef, value := some (Val.vstr "v"),
              error := some false, errorMessage := some none,
              _registered := some true, _item := some false })],
          unregisteredErrors := [], submitting := false }).1.errors = some [] :=
  validateForm_success_yields_empty_errors_object (fun _ _ => []) _
    (by intro kv hkv; simp at hkv; simp [hkv]) (fun _ _ => rfl) rfl

/-!  ### Claim C8  -/

/-- C8: for any stored field, an `unregisterField` → `reregisterField` cycle
leaves the record equal to the original with only `_registered` forced to
`true`: `value` and every other attribute are preserved, all other entries
and the key order are untouched. -/
theorem unregister_reregister_cycle_preserves_record (reg : Registry)
    (name : String) (rec : FormFieldType) (h : oget reg name = some rec) :
    oget (reregisterField name (unregisterField name reg)) name
        = some { rec with _registered := some true } ∧
    (∀ k, k ≠ name →
      oget (reregisterField name (unregisterField name reg)) k = oget reg k) ∧
    okeys (reregisterField name (unregisterField name reg)) = okeys reg := by
  have hu : unregisterField name reg
      = oset reg name { rec with _registered := some false } := by
    simp [unregisterField, h]
    rfl
  have h1 : oget (unregisterField name reg) name
      = some { rec with _registered := some false } := by
    rw [hu]; exact oget_oset_self _ _ _
  have hr : reregisterField name (unregisterField name reg)
      = oset (unregisterField name reg) name { rec with _registered := some true } := by
    simp [reregisterField, h1]
    rfl
  refine ⟨?_, ?_, ?_⟩
  · rw [hr]; exact oget_oset_self _ _ _
  · intro k hk
    rw [hr, oget_oset_ne _ _ _ _ hk, hu, oget_oset_ne _ _ _ _ hk]
  · rw [hr, hu]
    rw [okeys_oset_of_present, okeys_oset_of_present]
    · simp [h]
    · rw [oget_oset_self]; rfl

/-- C8 witness: the cycle exercised on a concrete registry of two fields. -/
theorem unregister_reregister_cycle_preserves_record_witness :
    oget (reregisterField "a" (unregisterField "a"
        [("a", { value := some (Val.vnum 2), _registered := some true }),
         ("b", { value := some (Val.vnum 3), _registered := some true })])) "a"
      = some { value := some (Val.vnum 2), _registered := some true } ∧
    (∀ k, k ≠ "a" →
      oget (reregisterField "a" (unregisterField "a"
        [("a", { value := some (Val.vnum 2), _registered := some true }),
         ("b", { value := some (Val.vnum 3), _registered := some true })])) k
        = oget ([("a", { value := some (Val.vnum 2), _registered := some true }),
                ("b", { value := some (Val.vnum 3), _registered := some true })] : Registry) k) ∧
    okeys (reregisterField "a" (unregisterField "a"
        [("a", { value := some (Val.vnum 2), _registered := some true }),
         ("b", { value := some (Val.vnum 3), _registered := some true })]))
      = okeys ([("a", { value := some (Val.vnum 2), _registered := some true }),
               ("b", { value := some (Val.vnum 3), _registered := some true })] : Registry) :=
  unregister_reregister_cycle_preserves_record _ "a"
    { value := some (Val.vnum 2), _registered := some true } rfl

/-!  ### Claim C9  -/

theorem resetRecord_idem (v : FormFieldType) :
    resetRecord (resetRecord v) = resetRecord v :=
  rfl

/-- C9: `resetForm` is idempotent — applying it twice yields exactly the
per-field state of applying it once (it rewrites `value`, `touched`, `error`
and `errorMessage` from the untouched `originalValue`). -/
theorem resetForm_idempotent (fields : Registry) :
    resetForm (resetForm fields) = resetForm fields := by
  simp [resetForm, List.map_map, Function.comp, resetRecord_idem]

/-!  ### Claim C10  -/

theorem jsTruthyOptBool_jsAndOptBool (a b : Option Bool) :
    jsTruthyOptBool (jsAndOptBool a b)
      = (jsTruthyOptBool a && jsTruthyOptBool b) := by
  rcases a with _ | _ | _ <;> rcases b with _ | _ | _ <;> rfl

/-- C10: the `error` the `Field` context exposes for a stored record is the
JS conjunction `field.error && field.touched`: its truthiness is the
conjunction of the record's error flag and touched flag, so an untouched
record reports a falsy `error` even when validation recorded `error = true`. -/
theorem fieldContext_error_is_conjunction (rec : FormFieldType) :
    jsTruthyOptBool ((fieldContextValue (some rec)).error)
      = (jsTruthyOptBool rec.error && jsTruthyOptBool rec.touched) :=
  jsTruthyOptBool_jsAndOptBool rec.error rec.touched

/-!  ### Decimal keys: rendering, parsing and splitting round-trips  -/

theorem digitVal?_ofNat (d : Nat) (h : d < 10) :
    digitVal? (Char.ofNat (48 + d)) = some d := by
  interval_cases d <;> decide

theorem natToCharsGo_digits : ∀ (f n : Nat), ∀ c ∈ natToCharsGo f n,
    (digitVal? c).isSome := by
  intro f
  induction f with
  | zero => intro n c hc; simp [natToCharsGo] at hc
  | succ f ih =>
    intro n c hc
    by_cases h : n < 10
    · simp only [natToCharsGo, h, if_true, ite_true, List.mem_singleton] at hc
      subst hc
      simp [digitVal?_ofNat n h]
    · simp only [natToCharsGo, h, if_false, ite_false, List.mem_append,
        List.mem_singleton] at hc
      rcases hc with hc | hc
      · exact ih (n / 10) c hc
      · subst hc
        simp [digitVal?_ofNat (n % 10) (Nat.mod_lt n (by norm_num))]

theorem foldDigits_append_last (xs : List Char) (c : Char) (a : Nat) :
    (xs ++ [c]).foldl (fun x ch => 10 * x + (digitVal? ch).getD 0) a
      = 10 * (xs.foldl (fun x ch => 10 * x + (digitVal? ch).getD 0) a)
          + (digitVal? c).getD 0 := by
  rw [List.foldl_append]
  rfl

theorem natToCharsGo_val : ∀ (f n : Nat), n < 10 ^ f →
    (natToCharsGo f n).foldl (fun x ch => 10 * x + (digitVal? ch).getD 0) 0 = n := by
  intro f
  induction f with
  | zero =>
    intro n hn
    interval_cases n
    rfl
  | succ f ih =>
    intro n hn
    by_cases h : n < 10
    · simp [natToCharsGo, h, digitVal?_ofNat n h]
    · have hdiv : n / 10 < 10 ^ f := by
        rw [Nat.div_lt_iff_lt_mul (by norm_num)]
        calc n < 10 ^ (f + 1) := hn
        _ = 10 ^ f * 10 := by ring
      simp only [natToCharsGo, h, if_false, ite_false]
      rw [foldDigits_append_last, ih (n / 10) hdiv,
        digitVal?_ofNat (n % 10) (Nat.mod_lt n (by norm_num))]
      simp
      omega

theorem parseFold_go : ∀ (cs : List Char), (∀ c ∈ cs, (digitVal? c).isSome) →
    ∀ a : Nat,
      cs.foldl
          (fun acc c =>
            match acc, digitVal? c with
            | some a, some d => some (10 * a + d)
            | _, _ => none)
          (some a)
        = some (cs.foldl (fun x ch => 10 * x + (digitVal? ch).getD 0) a) := by
  intro cs
  induction cs with
  | nil => intro _ a; rfl
  | cons c cs ih =>
    intro h a
    obtain ⟨d, hd⟩ := Option.isSome_iff_exists.mp (h c (List.mem_cons_self c cs))
    simp only [List.foldl_cons, hd, Option.getD_some]
    rw [ih (fun x hx => h x (List.mem_cons_of_mem c hx)) (10 * a + d)]

theorem parseNatDigits_of_digits (cs : List Char)
    (h : ∀ c ∈ cs, (digitVal? c).isSome) :
    parseNatDigits cs
      = some (cs.foldl (fun x ch => 10 * x + (digitVal? ch).getD 0) 0) :=
  parseFold_go cs h 0

theorem n_lt_ten_pow (n : Nat) : n < 10 ^ (n + 1) :=
  Nat.lt_of_lt_of_le (Nat.lt_pow_self (by norm_num) n)
    (Nat.pow_le_pow_right (by norm_num) (Nat.le_succ n))

theorem jsNumber_natStr (n : Nat) : jsNumber (natStr n) = some (n : Int) := by
  have hd := natToCharsGo_digits (n + 1) n
  have hne : (natToCharsGo (n + 1) n).head? ≠ some '-' := by
    cases hcs : natToCharsGo (n + 1) n with
    | nil => simp
    | cons c rest =>
      simp only [List.head?, ne_eq, Option.some.injEq]
      intro hc
      have := hd c (by rw [hcs]; exact List.mem_cons_self c rest)
      rw [hc] at this
      simp [digitVal?] at this
  have hdata : (natStr n).data = natToCharsGo (n + 1) n := rfl
  unfold jsNumber
  rw [hdata, if_neg hne, parseNatDigits_of_digits _ hd,
    natToCharsGo_val (n + 1) n (n_lt_ten_pow n)]
  rfl

theorem natStr_inj {i j : Nat} (h : natStr i = natStr j) : i = j := by
  have := congrArg jsNumber h
  rw [jsNumber_natStr, jsNumber_natStr] at this
  simpa using this

theorem string_data_append (s t : String) : (s ++ t).data = s.data ++ t.data :=
  rfl

theorem mkKey_data (g : String) (i : Nat) :
    (mkKey g i).data = g.data ++ '.' :: natToCharsGo (i + 1) i := by
  show ((g ++ "." ++ natStr i)).data = _
  rw [string_data_append, string_data_append]
  have h2 : ".".data = ['.'] := rfl
  have h3 : (natStr i).data = natToCharsGo (i + 1) i := rfl
  rw [h2, h3, List.append_assoc]
  rfl

theorem mkKey_inj (g : String) (i j : Nat) (h : mkKey g i = mkKey g j) : i = j := by
  have hd := congrArg String.data h
  rw [mkKey_data, mkKey_data] at hd
  have hc := List.append_cancel_left hd
  refine natStr_inj (show natStr i = natStr j from ?_)
  unfold natStr
  exact congrArg String.mk (by injection hc)

theorem natToCharsGo_no_dot (f n : Nat) : '.' ∉ natToCharsGo f n := by
  intro hmem
  have := natToCharsGo_digits f n '.' hmem
  simp [digitVal?] at this

theorem splitOnDot_no_dot : ∀ (cs : List Char), '.' ∉ cs → splitOnDot cs = [cs] := by
  intro cs
  induction cs with
  | nil => intro _; rfl
  | cons c cs ih =>
    intro h
    have hc : ¬(c = '.') := fun hc => h (hc ▸ List.mem_cons_self c cs)
    have h' : '.' ∉ cs := fun hx => h (List.mem_cons_of_mem c hx)
    simp [splitOnDot, hc, ih h']

theorem splitOnDot_append (a b : List Char) (ha : '.' ∉ a) :
    splitOnDot (a ++ '.' :: b) = a :: splitOnDot b := by
  induction a with
  | nil => simp [splitOnDot]
  | cons c a ih =>
    have hc : ¬(c = '.') := fun hc => ha (hc ▸ List.mem_cons_self c a)
    have ha' : '.' ∉ a := fun hx => ha (List.mem_cons_of_mem c hx)
    show splitOnDot (c :: (a ++ '.' :: b)) = (c :: a) :: splitOnDot b
    rw [splitOnDot, if_neg hc, ih ha']

theorem keySecondSegment_mkKey (g : String) (i : Nat) (hg : '.' ∉ g.data) :
    keySecondSegment (mkKey g i) = some (natStr i) := by
  unfold keySecondSegment
  rw [mkKey_data, splitOnDot_append _ _ hg,
    splitOnDot_no_dot _ (natToCharsGo_no_dot (i + 1) i)]
  rfl

theorem jsIdx_mkKey (g : String) (i : Nat) (hg : '.' ∉ g.data) :
    ((keySecondSegment (mkKey g i)).bind jsNumber) = some (i : Int) := by
  rw [keySecondSegment_mkKey g i hg]
  simp [jsNumber_natStr]

theorem isGroupKey_mkKey (g : String) (i : Nat) : isGroupKey g (mkKey g i) = true := by
  unfold isGroupKey strStartsWith strContainsDot
  rw [mkKey_data, Bool.and_eq_true]
  constructor
  · exact List.isPrefixOf_iff_prefix.mpr (List.prefix_append _ _)
  · show List.elem '.' (g.data ++ '.' :: natToCharsGo (i + 1) i) = true
    exact List.elem_iff.mpr (by simp)

/-!  ### Merging a complete record replaces the target entirely  -/

theorem mergeField_of_complete (old p : FormFieldType)
    (h : completeRec p = true) : mergeField old p = p := by
  obtain ⟨r, t, ov, v, e, em, rg, it⟩ := p
  simp only [completeRec, Bool.and_eq_true, Option.isSome_iff_exists] at h
  obtain ⟨⟨a1, h1⟩, ⟨a2, h2⟩, ⟨a3, h3⟩, ⟨a4, h4⟩, ⟨a5, h5⟩, ⟨a6, h6⟩,
    ⟨a7, h7⟩, ⟨a8, h8⟩⟩ := h
  subst h1 h2 h3 h4 h5 h6 h7 h8
  rfl

/-!  ### The indexed map of `removeHandler` counts the group items  -/

theorem nset_keys {α : Type} (m : List (Option Int × α)) (k : Option Int) (v : α) :
    (nset m k v).map Prod.fst
      = if k ∈ m.map Prod.fst then m.map Prod.fst else m.map Prod.fst ++ [k] := by
  induction m with
  | nil => simp [nset]
  | cons kv rest ih =>
    by_cases hk : kv.1 = k
    · simp [nset, hk]
    · have hne : ¬(k = kv.1) := fun hh => hk hh.symm
      by_cases hmem : k ∈ rest.map Prod.fst
      · simp [nset, hk, hmem, hne, ih]
      · simp [nset, hk, hmem, hne, ih]

theorem nset_keys_nodup {α : Type} (m : List (Option Int × α)) (k : Option Int)
    (v : α) (h : (m.map Prod.fst).Nodup) : ((nset m k v).map Prod.fst).Nodup := by
  rw [nset_keys]
  by_cases hmem : k ∈ m.map Prod.fst
  · simpa [hmem] using h
  · simp only [hmem, if_false, ite_false]
    exact List.Nodup.append h (List.nodup_singleton k)
      (fun a ha hk => hmem ((List.mem_singleton.mp hk) ▸ ha))

theorem nset_keys_mem {α : Type} (m : List (Option Int × α)) (k x : Option Int)
    (v : α) : x ∈ (nset m k v).map Prod.fst ↔ x ∈ m.map Prod.fst ∨ x = k := by
  rw [nset_keys]
  by_cases hmem : k ∈ m.map Prod.fst
  · simp only [hmem, if_true, ite_true]
    constructor
    · exact Or.inl
    · rintro (hx | rfl)
      · exact hx
      · exact hmem
  · simp [hmem]

/-- The fold that builds `indexedMap`, abstracted over its accumulator. -/
theorem collectIndexed_fold_keys (name : String) :
    ∀ (l : Registry) (acc : List (Option Int × FormFieldType)),
      (acc.map Prod.fst).Nodup →
      (((l.foldl
          (fun acc kv =>
            if isGroupKey name kv.1 then
              nset acc ((keySecondSegment kv.1).bind jsNumber) kv.2
            else acc) acc).map Prod.fst).Nodup ∧
       ∀ x, x ∈ (l.foldl
          (fun acc kv =>
            if isGroupKey name kv.1 then
              nset acc ((keySecondSegment kv.1).bind jsNumber) kv.2
            else acc) acc).map Prod.fst
          ↔ (x ∈ acc.map Prod.fst ∨
             ∃ kv ∈ l, isGroupKey name kv.1 = true ∧
               x = (keySecondSegment kv.1).bind jsNumber)) := by
  intro l
  induction l with
  | nil =>
    intro acc hacc
    exact ⟨hacc, by simp⟩
  | cons kv l ih =>
    intro acc hacc
    by_cases hg : isGroupKey name kv.1
    · simp only [List.foldl_cons, hg, if_true, ite_true]
      obtain ⟨hn, hm⟩ := ih (nset acc ((keySecondSegment kv.1).bind jsNumber) kv.2)
        (nset_keys_nodup _ _ _ hacc)
      refine ⟨hn, fun x => ?_⟩
      rw [hm x, nset_keys_mem]
      constructor
      · rintro ((hx | rfl) | ⟨kv', hkv', hgk', hx⟩)
        · exact Or.inl hx
        · exact Or.inr ⟨kv, List.mem_cons_self kv l, hg, rfl⟩
        · exact Or.inr ⟨kv', List.mem_cons_of_mem kv hkv', hgk', hx⟩
      · rintro (hx | ⟨kv', hkv', hgk', hx⟩)
        · exact Or.inl (Or.inl hx)
        · rcases List.mem_cons.mp hkv' with rfl | hkv'
          · exact Or.inl (Or.inr hx)
          · exact Or.inr ⟨kv', hkv', hgk', hx⟩
    · simp only [List.foldl_cons]
      rw [if_neg hg]
      obtain ⟨hn, hm⟩ := ih acc hacc
      refine ⟨hn, fun x => ?_⟩
      rw [hm x]
      constructor
      · rintro (hx | ⟨kv', hkv', hgk', hx⟩)
        · exact Or.inl hx
        · exact Or.inr ⟨kv', List.mem_cons_of_mem kv hkv', hgk', hx⟩
      · rintro (hx | ⟨kv', hkv', hgk', hx⟩)
        · exact Or.inl hx
        · rcases List.mem_cons.mp hkv' with rfl | hkv'
          · exact absurd hgk' (by simp [hg])
          · exact Or.inr ⟨kv', hkv', hgk', hx⟩

theorem collectIndexed_keys (name : String) (l : Registry) :
    ((collectIndexed name l).map Prod.fst).Nodup ∧
    (∀ x, x ∈ (collectIndexed name l).map Prod.fst ↔
      ∃ kv ∈ l, isGroupKey name kv.1 = true ∧
        x = (keySecondSegment kv.1).bind jsNumber) := by
  unfold collectIndexed
  obtain ⟨hn, hm⟩ := collectIndexed_fold_keys name l [] (by simp)
  refine ⟨hn, fun x => (hm x).trans ?_⟩
  simp

theorem collectIndexed_length (g : String) (n : Nat) (reg : Registry)
    (hg : '.' ∉ g.data)
    (hmem : ∀ i, i < n → (oget reg (mkKey g i)).isSome)
    (hgroup : ∀ kv ∈ reg, isGroupKey g kv.1 = true →
      ∃ i, i < n ∧ kv.1 = mkKey g i) :
    (collectIndexed g reg).length = n := by
  obtain ⟨hn, hm⟩ := collectIndexed_keys g reg
  have hiff : ∀ x, x ∈ (collectIndexed g reg).map Prod.fst
      ↔ ∃ i, i < n ∧ x = some (i : Int) := by
    intro x
    rw [hm x]
    constructor
    · rintro ⟨kv, hkv, hgk, rfl⟩
      obtain ⟨i, hi, hkey⟩ := hgroup kv hkv hgk
      exact ⟨i, hi, by rw [hkey, jsIdx_mkKey g i hg]⟩
    · rintro ⟨i, hi, rfl⟩
      obtain ⟨r, hr⟩ := Option.isSome_iff_exists.mp (hmem i hi)
      exact ⟨(mkKey g i, r), mem_of_oget_eq_some _ _ _ hr, isGroupKey_mkKey g i,
        (jsIdx_mkKey g i hg).symm⟩
  have hlen : (collectIndexed g reg).length
      = ((collectIndexed g reg).map Prod.fst).length := (List.length_map _ _).symm
  rw [hlen, ← List.toFinset_card_of_nodup hn]
  have hset : ((collectIndexed g reg).map Prod.fst).toFinset
      = (Finset.range n).image (fun i : Nat => (some (i : Int) : Option Int)) := by
    apply Finset.ext
    intro x
    simp only [List.mem_toFinset, Finset.mem_image, Finset.mem_range]
    rw [hiff x]
    constructor
    · rintro ⟨i, hi, rfl⟩
      exact ⟨i, hi, rfl⟩
    · rintro ⟨i, hi, rfl⟩
      exact ⟨i, hi, rfl⟩
  rw [hset,
    Finset.card_image_of_injective _ (fun a b hab => by simpa using hab),
    Finset.card_range]

/-!  ### The shift loop, slot by slot  -/

theorem shiftLoopGo_succ (g : String) (snap : Registry) (a len : Nat)
    (st : Registry) :
    shiftLoopGo g snap a (len + 1) st
      = shiftLoopGo g snap (a + 1) len
          (updateField (mkKey g a) ((oget snap (mkKey g (a + 1))).getD {}) st) :=
  rfl

theorem shiftLoopGo_oget_other (g : String) (snap : Registry) :
    ∀ (len a : Nat) (st : Registry) (k : String),
      (∀ i, a ≤ i → i < a + len → k ≠ mkKey g i) →
      oget (shiftLoopGo g snap a len st) k = oget st k := by
  intro len
  induction len with
  | zero => intro a st k _; rfl
  | succ len ih =>
    intro a st k hk
    rw [shiftLoopGo_succ,
      ih (a + 1) _ k (fun i hi1 hi2 => hk i (by omega) (by omega))]
    unfold updateField
    exact oget_oset_ne _ _ _ _ (hk a (le_refl a) (by omega))

theorem shiftLoopGo_oget_hit (g : String) (snap : Registry)
    (r : Nat → FormFieldType) :
    ∀ (len a : Nat) (st : Registry) (j : Nat),
      (∀ i, a ≤ i → i < a + len →
        oget snap (mkKey g (i + 1)) = some (r (i + 1)) ∧
          completeRec (r (i + 1)) = true) →
      a ≤ j → j < a + len →
      oget (shiftLoopGo g snap a len st) (mkKey g j) = some (r (j + 1)) := by
  intro len
  induction len with
  | zero => intro a st j _ h1 h2; omega
  | succ len ih =>
    intro a st j hsnap hj1 hj2
    rw [shiftLoopGo_succ]
    by_cases hj : j = a
    · subst hj
      obtain ⟨hs, hc⟩ := hsnap j (le_refl j) (by omega)
      rw [shiftLoopGo_oget_other g snap len (j + 1) _ (mkKey g j)
        (fun i hi1 _ => fun he => by
          have := mkKey_inj g j i he
          omega)]
      unfold updateField
      rw [hs]
      simp only [Option.getD_some]
      rw [mergeField_of_complete _ _ hc]
      exact oget_oset_self _ _ _
    · exact ih (a + 1) _ j
        (fun i hi1 hi2 => hsnap i (by omega) (by omega)) (by omega) (by omega)

theorem shiftLoopGo_okeys (g : String) (snap : Registry) :
    ∀ (len a : Nat) (st : Registry),
      (∀ i, a ≤ i → i < a + len → (oget st (mkKey g i)).isSome) →
      okeys (shiftLoopGo g snap a len st) = okeys st := by
  intro len
  induction len with
  | zero => intro a st _; rfl
  | succ len ih =>
    intro a st hpres
    rw [shiftLoopGo_succ]
    have hpres1 : ∀ i, a + 1 ≤ i → i < (a + 1) + len →
        (oget (updateField (mkKey g a)
          ((oget snap (mkKey g (a + 1))).getD {}) st) (mkKey g i)).isSome := by
      intro i hi1 hi2
      unfold updateField
      by_cases he : mkKey g i = mkKey g a
      · rw [he, oget_oset_self]
        rfl
      · rw [oget_oset_ne _ _ _ _ he]
        exact hpres i (by omega) (by omega)
    rw [ih (a + 1) _ hpres1]
    unfold updateField
    exact okeys_oset_of_present _ _ _ (hpres a (le_refl a) (by omega))

theorem intStr_coe_sub_one (n : Nat) (h : 1 ≤ n) :
    intStr ((n : Int) - 1) = natStr (n - 1) := by
  unfold intStr
  rw [if_neg (by omega)]
  congr 1
  omega

/-!  ### Claim C7  -/

/-- C7 amended: removing index `index` from a dense `n`-item group (`group.0` …
`group.(n-1)` with complete records, no other registry key matching the
group's dotted-prefix test) copies the full record of `group.(i+1)` onto
`group.i` for `i` from `index` to `n-2` and deletes `group.(n-1)`: afterwards
slot `i` holds the original record `r i` for `i < index` and `r (i+1)` for
`index ≤ i ≤ n-2` (value, error and touched state and relative order of the
items after `index` preserved), slot `n-1` is gone, and every key outside the
group is untouched. -/
theorem removeHandler_shifts_down_and_deletes_last (g : String) (n index : Nat)
    (reg : Registry) (r : Nat → FormFieldType)
    (hg : '.' ∉ g.data)
    (hnodup : (okeys reg).Nodup)
    (hmem : ∀ i, i < n → oget reg (mkKey g i) = some (r i))
    (hcomp : ∀ i, i < n → completeRec (r i) = true)
    (hgroup : ∀ kv ∈ reg, isGroupKey g kv.1 = true →
      ∃ i, i < n ∧ kv.1 = mkKey g i)
    (hidx : index < n) :
    (∀ i, i < index →
      oget (removeHandler g index reg) (mkKey g i) = some (r i)) ∧
    (∀ i, index ≤ i → i + 1 < n →
      oget (removeHandler g index reg) (mkKey g i) = some (r (i + 1))) ∧
    oget (removeHandler g index reg) (mkKey g (n - 1)) = none ∧
    (∀ k, (∀ i, i < n → k ≠ mkKey g i) →
      oget (removeHandler g index reg) k = oget reg k) := by
  have hcnt : (collectIndexed g reg).length = n :=
    collectIndexed_length g n reg hg
      (fun i hi => by rw [hmem i hi]; rfl) hgroup
  have hmain : removeHandler g index reg
      = odel (shiftLoopGo g reg index (n - 1 - index) reg) (mkKey g (n - 1)) := by
    simp only [removeHandler, shiftLoop, deleteField, hcnt]
    rw [intStr_coe_sub_one n (by omega)]
    rfl
  have hsnap : ∀ i, index ≤ i → i < index + (n - 1 - index) →
      oget reg (mkKey g (i + 1)) = some (r (i + 1)) ∧
        completeRec (r (i + 1)) = true :=
    fun i _ hi2 => ⟨hmem (i + 1) (by omega), hcomp (i + 1) (by omega)⟩
  refine ⟨?_, ?_, ?_, ?_⟩
  · intro i hi
    rw [hmain,
      oget_odel_ne _ _ _ (fun he => by have := mkKey_inj g i (n - 1) he; omega),
      shiftLoopGo_oget_other g reg _ _ _ _
        (fun j hj1 _ he => by have := mkKey_inj g i j he; omega)]
    exact hmem i (by omega)
  · intro i hi1 hi2
    rw [hmain,
      oget_odel_ne _ _ _ (fun he => by have := mkKey_inj g i (n - 1) he; omega)]
    exact shiftLoopGo_oget_hit g reg r _ index reg i hsnap hi1 (by omega)
  · rw [hmain]
    apply oget_odel_self
    rw [shiftLoopGo_okeys g reg _ index reg
      (fun i _ hi2 => by rw [hmem i (by omega)]; rfl)]
    exact hnodup
  · intro k hk
    rw [hmain, oget_odel_ne _ _ _ (hk (n - 1) (by omega)),
      shiftLoopGo_oget_other g reg _ index reg k
        (fun i _ hi2 => hk i (by omega))]

/-- A concrete dense two-item group registry used to exercise `removeHandler`
(the second record carries error state). -/
def demoRec0 : FormFieldType :=
  { required := some false, touched := some true,
    originalValue := some (Val.vstr "a"), value := some (Val.vstr "a"),
    error := some false, errorMessage := some none,
    _registered := some true, _item := some true }

/-- Second record of the demo group. -/
def demoRec1 : FormFieldType :=
  { required := some false, touched := some true,
    originalValue := some (Val.vstr "b"), value := some (Val.vstr "b"),
    error := some true, errorMessage := some (some "bad"),
    _registered := some true, _item := some true }

/-- The demo registry holding the dense group `tags.0`, `tags.1`. -/
def demoTags : Registry := [("tags.0", demoRec0), ("tags.1", demoRec1)]

/-- The records of the demo group by index. -/
def demoR : Nat → FormFieldType := fun i => if i = 0 then demoRec0 else demoRec1

/-- C7 witness: removal at index 0 of the concrete dense two-item group; the
surviving slot 0 holds the full second record and slot 1 is deleted. -/
theorem removeHandler_shifts_down_and_deletes_last_witness :
    (∀ i, i < 0 →
      oget (removeHandler "tags" 0 demoTags) (mkKey "tags" i) = some (demoR i)) ∧
    (∀ i, 0 ≤ i → i + 1 < 2 →
      oget (removeHandler "tags" 0 demoTags) (mkKey "tags" i)
        = some (demoR (i + 1))) ∧
    oget (removeHandler "tags" 0 demoTags) (mkKey "tags" (2 - 1)) = none ∧
    (∀ k, (∀ i, i < 2 → k ≠ mkKey "tags" i) →
      oget (removeHandler "tags" 0 demoTags) k = oget demoTags k) :=
  removeHandler_shifts_down_and_deletes_last "tags" 2 0 demoTags demoR
    (by decide) (by decide)
    (by intro i hi; interval_cases i <;> rfl)
    (by intro i hi; interval_cases i <;> rfl)
    (by
      intro kv hkv hgk
      simp only [demoTags, List.mem_cons, List.not_mem_nil, or_false] at hkv
      rcases hkv with rfl | rfl
      · exact ⟨0, by omega, rfl⟩
      · exact ⟨1, by omega, rfl⟩)
    (by omega)

/-- C7 counterexample: with a prefix-sharing group present, the claim fails
as stated.  The registry holds the one-item group `tags` plus the two-item
group `tagsX`; `remove("tags", 0)` counts items with
`k.startsWith("tags") && k.includes('.')`, a test the `tagsX` keys also pass,
so `cnt = 2`: the shift copies the absent `tags.1` (an empty merge, a no-op)
and then deletes the absent `tags.1`.  The call leaves the registry
completely unchanged — the `tags` group still holds its item at index 0
instead of becoming empty. -/
theorem removeHandler_prefix_collision_cex :
    (let reg : Registry :=
      [("tags.0", demoRec0), ("tagsX.0", demoRec0), ("tagsX.1", demoRec1)];
     removeHandler "tags" 0 reg = reg ∧
     oget (removeHandler "tags" 0 reg) "tags.0" = some demoRec0) :=
  ⟨rfl, rfl⟩
